import Mathlib

/-!
Verification development for the red-ink removal pipeline
(detection, mask dilation, inpainting, tuning resolution, batch orchestration).
Arithmetic on pixel data is carried out in `ℚ`; all numeric literals appearing
in comparisons and clamps are exactly the source literals, so ordering
comparisons agree with the source's number semantics.
-/

namespace FSV

/-- RGBA pixel, one byte per channel (0–255), as stored in the canvas
`ImageData` array at offsets `idx .. idx+3`. -/
structure Pix where
  r : ℕ
  g : ℕ
  b : ℕ
  a : ℕ
deriving DecidableEq, Repr

/-- A pixel buffer, indexed by `(x, y)`. -/
abbrev Buf := ℕ × ℕ → Pix

/-- A detection mask, indexed by `(x, y)`. -/
abbrev Mask := ℕ × ℕ → Bool

/-- The `RedDetectionTuning` record of the source.  `sMin`/`vMin` are HSV
thresholds, `hueA`/`hueB` hue ranges in degrees, and the two radii are the
integers produced by `clampInt`. -/
structure RedDetectionTuning where
  sMin : ℚ
  vMin : ℚ
  hueA : ℚ × ℚ
  hueB : ℚ × ℚ
  dilateRadius : ℤ
  inpaintRadius : ℤ
deriving DecidableEq, Repr

/-- `DEFAULT_TUNING` of the source. -/
def DEFAULT_TUNING : RedDetectionTuning :=
  { sMin := 35 / 100
    vMin := 25 / 100
    hueA := (0, 25)
    hueB := (330, 360)
    dilateRadius := 1
    inpaintRadius := 2 }

/-- Truncation toward zero, as ECMAScript truncates the quotient when
evaluating the `%` operator. -/
def jsTrunc (q : ℚ) : ℤ :=
  if 0 ≤ q then ⌊q⌋ else ⌈q⌉

/-- The ECMAScript remainder operator `%` on (finite, nonzero-divisor)
numbers: `x % m = x - m * trunc (x / m)`. -/
def jsRem (x m : ℚ) : ℚ :=
  x - m * jsTrunc (x / m)

/-- `Math.round` on a finite number: round half toward positive infinity. -/
def jsRound (q : ℚ) : ℤ :=
  ⌊q + 1 / 2⌋

/-- Result of `rgbToHsv`. -/
structure Hsv where
  h : ℚ
  s : ℚ
  v : ℚ
deriving DecidableEq, Repr

/-- `rgbToHsv` of the source: standard max/min/delta construction with the
red branch using the JavaScript `% 6` remainder. -/
def rgbToHsv (r g b : ℚ) : Hsv :=
  let mx := max r (max g b)
  let mn := min r (min g b)
  let delta := mx - mn
  let h0 : ℚ :=
    if delta ≠ 0 then
      let h1 : ℚ :=
        if mx = r then jsRem ((g - b) / delta) 6
        else if mx = g then (b - r) / delta + 2
        else (r - g) / delta + 4
      let h2 := h1 * 60
      if h2 < 0 then h2 + 360 else h2
    else 0
  { h := h0
    s := if mx = 0 then 0 else delta / mx
    v := mx }

/-- `inHueRange` of the source: closed interval when `a ≤ b`, otherwise the
range wraps around 360. -/
def inHueRange (h a b : ℚ) : Bool :=
  if a ≤ b then decide (a ≤ h) && decide (h ≤ b)
  else decide (a ≤ h) || decide (h ≤ b)

/-- Per-pixel classification of the mask-building loop of
`processImageRemoveRed`: pixels with alpha `< 10` are skipped, then pixels
failing the saturation/value thresholds, and the remainder is classified by
`inHueRange` on `hueA` or `hueB`. -/
def detectPixel (t : RedDetectionTuning) (p : Pix) : Bool :=
  if p.a < 10 then false
  else
    let hsv := rgbToHsv ((p.r : ℚ) / 255) ((p.g : ℚ) / 255) ((p.b : ℚ) / 255)
    if hsv.s < t.sMin ∨ hsv.v < t.vMin then false
    else inHueRange hsv.h t.hueA.1 t.hueA.2 || inHueRange hsv.h t.hueB.1 t.hueB.2

/-- The detection mask built by stage 1 of `processImageRemoveRed`; each
in-bounds pixel is classified independently of all others. -/
def buildMask (data : Buf) (w h : ℕ) (t : RedDetectionTuning) : Mask :=
  fun p => decide (p.1 < w) && decide (p.2 < h) && detectPixel t (data p)

/-- Hue-range membership as the specification words it: the non-wrapping case
(lower ≤ upper) is the half-open interval `[lower, upper)`; the wrapping case
is `h ≥ lower OR h ≤ upper`.  Written from the spec for comparison with the
source's `inHueRange`. -/
def specHueMemberHalfOpen (h a b : ℚ) : Bool :=
  if a ≤ b then decide (a ≤ h) && decide (h < b)
  else decide (a ≤ h) || decide (h ≤ b)

/-- Classification as the specification claim words it: thresholds plus
half-open hue-range membership.  Written from the spec for comparison with
`detectPixel`. -/
def specClassifyHalfOpen (t : RedDetectionTuning) (p : Pix) : Bool :=
  if p.a < 10 then false
  else
    let hsv := rgbToHsv ((p.r : ℚ) / 255) ((p.g : ℚ) / 255) ((p.b : ℚ) / 255)
    if hsv.s < t.sMin ∨ hsv.v < t.vMin then false
    else specHueMemberHalfOpen hsv.h t.hueA.1 t.hueA.2 ||
      specHueMemberHalfOpen hsv.h t.hueB.1 t.hueB.2

/-- Closed hue-range membership (the source's `inHueRange`) as a proposition:
`[lower, upper]` when lower ≤ upper, otherwise wrap through 0/360. -/
def hueMemberClosed (h a b : ℚ) : Prop :=
  if a ≤ b then a ≤ h ∧ h ≤ b else a ≤ h ∨ h ≤ b

/-- The signed offsets `-r, …, r` iterated by the neighborhood loops, in
iteration order. -/
def offsets (r : ℕ) : List ℤ :=
  (List.range (2 * r + 1)).map (fun (i : ℕ) => (i : ℤ) - (r : ℤ))

/-- The bounds check `nx < 0 || ny < 0 || nx >= width || ny >= height`
(negated) shared by the dilation and inpainting loops. -/
def inBounds (w h : ℕ) (nx ny : ℤ) : Bool :=
  decide (0 ≤ nx) && decide (0 ≤ ny) && decide (nx < (w : ℤ)) && decide (ny < (h : ℤ))

/-- Row-major iteration order of the nested `for (y) for (x)` loops. -/
def allPixels (w h : ℕ) : List (ℕ × ℕ) :=
  (List.range h).flatMap (fun y => (List.range w).map (fun x => (x, y)))

/-- The inner double loop of `dilateMask`: set every in-bounds pixel within
Chebyshev distance `r` of `(x, y)`. -/
def setNeighborhood (w h r x y : ℕ) (m : Mask) : Mask :=
  (offsets r).foldl
    (fun acc dy =>
      (offsets r).foldl
        (fun acc2 dx =>
          let nx := (x : ℤ) + dx
          let ny := (y : ℤ) + dy
          if inBounds w h nx ny then Function.update acc2 (nx.toNat, ny.toNat) true
          else acc2)
        acc)
    m

/-- `dilateMask` of the source: radius ≤ 0 returns the input array itself;
otherwise the output starts as a copy of the input and the square
neighborhood of every originally-set pixel is set. -/
def dilateMask (m : Mask) (w h : ℕ) (radius : ℤ) : Mask :=
  if radius ≤ 0 then m
  else
    (allPixels w h).foldl
      (fun acc p => if m p then setNeighborhood w h radius.toNat p.1 p.2 acc else acc)
      m

/-- The in-bounds neighbor coordinates visited by the inpainting loops for
center `(x, y)`, in iteration order. -/
def neighborList (w h r x y : ℕ) : List (ℕ × ℕ) :=
  ((offsets r).flatMap fun dy => (offsets r).map fun dx => ((x : ℤ) + dx, (y : ℤ) + dy)).filterMap
    (fun c => if inBounds w h c.1 c.2 then some (c.1.toNat, c.2.toNat) else none)

/-- `Math.round (sum / count)` for natural `sum` and positive natural
`count`: round half up, computed exactly. -/
def jsRoundDiv (sum count : ℕ) : ℕ :=
  (2 * sum + count) / (2 * count)

/-- The value written to a masked pixel by the inpainting loop, reading
neighbor channels from the evolving output buffer `out`: the rounded mean of
the unmasked in-bounds neighbors, or solid white `(255,255,255)` when there
is none.  The alpha byte at the pixel is never written. -/
def inpaintValue (dmask : Mask) (w h r : ℕ) (out : Buf) (x y : ℕ) : Pix :=
  let ns := (neighborList w h r x y).filter fun q => dmask q = false
  let count := ns.length
  if 0 < count then
    { r := jsRoundDiv ((ns.map fun q => (out q).r).sum) count
      g := jsRoundDiv ((ns.map fun q => (out q).g).sum) count
      b := jsRoundDiv ((ns.map fun q => (out q).b).sum) count
      a := (out (x, y)).a }
  else
    { r := 255, g := 255, b := 255, a := (out (x, y)).a }

/-- One iteration of the inpainting loop body: pixels where the mask is not
set are skipped, masked pixels are overwritten in place. -/
def inpaintStep (dmask : Mask) (w h r : ℕ) (out : Buf) (p : ℕ × ℕ) : Buf :=
  if dmask p then Function.update out p (inpaintValue dmask w h r out p.1 p.2) else out

/-- The inpainting loop of `processImageRemoveRed` run over an explicit list
of pixel coordinates, starting from the copied buffer `data`. -/
def inpaintLoop (dmask : Mask) (w h r : ℕ) (order : List (ℕ × ℕ)) (data : Buf) : Buf :=
  order.foldl (inpaintStep dmask w h r) data

/-- Stage 3 of `processImageRemoveRed`: the inpainting loop in the source's
row-major order. -/
def inpaintImage (data : Buf) (dmask : Mask) (w h r : ℕ) : Buf :=
  inpaintLoop dmask w h r (allPixels w h) data

/-- The per-pixel reconstruction value computed from the ORIGINAL buffer:
masked pixels get the rounded mean of their unmasked in-bounds neighbors
read from `data` (white fallback when there is none, alpha preserved);
unmasked pixels are returned unchanged. -/
def inpaintPure (data : Buf) (dmask : Mask) (w h r : ℕ) (p : ℕ × ℕ) : Pix :=
  if dmask p then inpaintValue dmask w h r data p.1 p.2 else data p

/-- The whole image pipeline of `processImageRemoveRed`: detection mask,
dilation by `dilateRadius`, inpainting by `inpaintRadius`. -/
def processImageRemoveRed (data : Buf) (w h : ℕ) (t : RedDetectionTuning) : Buf :=
  inpaintImage data (dilateMask (buildMask data w h t) w h t.dilateRadius) w h
    t.inpaintRadius.toNat

/-- `clamp01` of the source on a number coming from parsed JSON (such a value
is a finite number, never the floating-point NaN, so the source's
`Number.isNaN` guard is not taken): `Math.max(0, Math.min(1, value))`. -/
def clamp01 (v : ℚ) : ℚ :=
  max 0 (min 1 v)

/-- `clampInt` of the source: `Math.round` then clamp into `[min, max]`. -/
def clampInt (v : ℚ) (lo hi : ℤ) : ℤ :=
  max lo (min hi (jsRound v))

/-- `((x % 360) + 360) % 360` with the JavaScript remainder. -/
def hueMod360 (x : ℚ) : ℚ :=
  jsRem (jsRem x 360 + 360) 360

/-- `normalizeHueRange` of the source: each endpoint taken modulo 360 into
`[0, 360)`. -/
def normalizeHueRange (range : ℚ × ℚ) : ℚ × ℚ :=
  (hueMod360 range.1, hueMod360 range.2)

/-- The record produced by `JSON.parse(json) as Partial<RedDetectionTuning>`
when every present field is a JSON number (resp. a pair of JSON numbers)
that parses to a finite double: absent fields are `none`.  Number literals
that overflow the double range (e.g. `1e999`, which parses to `Infinity`)
and non-numeric values are outside this record's domain; they are covered by
`JsParsedTuning` below. -/
structure ParsedTuning where
  sMin : Option ℚ
  vMin : Option ℚ
  hueA : Option (ℚ × ℚ)
  hueB : Option (ℚ × ℚ)
  dilateRadius : Option ℚ
  inpaintRadius : Option ℚ
deriving DecidableEq, Repr

/-- The record construction of `getTuningFromGemini` after a successful
parse: each field defaults individually (`?? DEFAULT_TUNING.field`) and is
then clamped/normalized. -/
def applyParsedTuning (p : ParsedTuning) : RedDetectionTuning :=
  { sMin := clamp01 (p.sMin.getD DEFAULT_TUNING.sMin)
    vMin := clamp01 (p.vMin.getD DEFAULT_TUNING.vMin)
    hueA := normalizeHueRange (p.hueA.getD DEFAULT_TUNING.hueA)
    hueB := normalizeHueRange (p.hueB.getD DEFAULT_TUNING.hueB)
    dilateRadius := clampInt (p.dilateRadius.getD (DEFAULT_TUNING.dilateRadius : ℚ)) 0 3
    inpaintRadius := clampInt (p.inpaintRadius.getD (DEFAULT_TUNING.inpaintRadius : ℚ)) 1 5 }

/-- The character `\x7b` (opening curly brace). -/
def braceOpen : Char := Char.ofNat 123

/-- The character `\x7d` (closing curly brace). -/
def braceClose : Char := Char.ofNat 125

/-- `String.prototype.lastIndexOf` for a single character, as an option. -/
def lastIdxOf (c : Char) (l : List Char) : Option ℕ :=
  match l.reverse.findIdx? (fun d => d = c) with
  | none => none
  | some i => some (l.length - 1 - i)

/-- `extractJsonObject` of the source: the span from the first `\x7b` to the
last `\x7d` (inclusive); `null` when either is missing or the end does not
lie strictly after the start. -/
def extractJsonObject (text : List Char) : Option (List Char) :=
  match text.findIdx? (fun d => d = braceOpen), lastIdxOf braceClose text with
  | some s, some e => if e ≤ s then none else some ((text.drop s).take (e + 1 - s))
  | _, _ => none

/-- `getTuningFromGemini` of the source, with the external pieces made
explicit: `response = none` covers every path on which no response text is
obtained (no configured API key, missing sample payload, and any transport
or runtime error, all of which return the default), and `parseJson` stands
for `JSON.parse` restricted to records whose present fields are numbers,
returning `none` when the span is not valid JSON. -/
def getTuningFromGemini (parseJson : List Char → Option ParsedTuning)
    (response : Option (List Char)) : RedDetectionTuning :=
  match response with
  | none => DEFAULT_TUNING
  | some text =>
    match extractJsonObject text with
    | none => DEFAULT_TUNING
    | some span =>
      match parseJson span with
      | none => DEFAULT_TUNING
      | some p => applyParsedTuning p

/-- A JavaScript number value as it occurs in this pipeline: a finite double
(carried exactly as a rational), positive or negative infinity, or NaN. -/
inductive JsNumber where
  | finite (q : ℚ)
  | posInf
  | negInf
  | nan
deriving DecidableEq, Repr

/-- A JSON value as it reaches the clamp helpers through the unchecked
`as Partial<RedDetectionTuning>` cast: a finite number, an infinity (a JSON
number literal that overflows the double range, e.g. `1e999` parses to
`Infinity`), or a non-numeric value (string, object, …) whose ECMAScript
`ToNumber` coercion is NaN.  A non-numeric value whose coercion is a number
(e.g. the string `"12"`) behaves in every operation of this pipeline exactly
like that number, so it is covered by `num`; `JSON.parse` never produces the
NaN number value itself. -/
inductive JsVal where
  | num (q : ℚ)
  | posInf
  | negInf
  | nonNumeric
deriving DecidableEq, Repr

/-- The ECMAScript `ToNumber` coercion performed by the arithmetic and
`Math.min` / `Math.max` on a parsed JSON value. -/
def JsVal.toNumber : JsVal → JsNumber
  | JsVal.num q => JsNumber.finite q
  | JsVal.posInf => JsNumber.posInf
  | JsVal.negInf => JsNumber.negInf
  | JsVal.nonNumeric => JsNumber.nan

/-- `Number.isNaN` on a parsed JSON value: always false, since none of the
values `JSON.parse` can produce is the NaN number value (`Number.isNaN` does
not coerce its argument). -/
def jsValIsNaN : JsVal → Bool :=
  fun _ => false

/-- `Math.min` on JavaScript numbers: NaN if either argument is NaN,
otherwise the usual order with `-Infinity` least and `+Infinity` greatest. -/
def jsMinN : JsNumber → JsNumber → JsNumber
  | JsNumber.nan, _ => JsNumber.nan
  | _, JsNumber.nan => JsNumber.nan
  | JsNumber.negInf, _ => JsNumber.negInf
  | _, JsNumber.negInf => JsNumber.negInf
  | JsNumber.posInf, y => y
  | x, JsNumber.posInf => x
  | JsNumber.finite a, JsNumber.finite b => JsNumber.finite (min a b)

/-- `Math.max` on JavaScript numbers: NaN if either argument is NaN,
otherwise the usual order with `-Infinity` least and `+Infinity` greatest. -/
def jsMaxN : JsNumber → JsNumber → JsNumber
  | JsNumber.nan, _ => JsNumber.nan
  | _, JsNumber.nan => JsNumber.nan
  | JsNumber.posInf, _ => JsNumber.posInf
  | _, JsNumber.posInf => JsNumber.posInf
  | JsNumber.negInf, y => y
  | x, JsNumber.negInf => x
  | JsNumber.finite a, JsNumber.finite b => JsNumber.finite (max a b)

/-- Addition of a finite constant, as in `(x % 360) + 360`: infinities and
NaN propagate. -/
def jsAddN : JsNumber → ℚ → JsNumber
  | JsNumber.finite q, c => JsNumber.finite (q + c)
  | JsNumber.posInf, _ => JsNumber.posInf
  | JsNumber.negInf, _ => JsNumber.negInf
  | JsNumber.nan, _ => JsNumber.nan

/-- The ECMAScript `%` operator with a finite nonzero divisor (here the
literals 360): `NaN` when the dividend is NaN or an infinity, otherwise the
truncating remainder. -/
def jsRemN : JsNumber → ℚ → JsNumber
  | JsNumber.finite q, m => JsNumber.finite (jsRem q m)
  | _, _ => JsNumber.nan

/-- `Math.round` on a JavaScript number: NaN and infinities are returned
unchanged, finite values round half toward positive infinity. -/
def jsRoundN : JsNumber → JsNumber
  | JsNumber.finite q => JsNumber.finite ((jsRound q : ℤ) : ℚ)
  | JsNumber.posInf => JsNumber.posInf
  | JsNumber.negInf => JsNumber.negInf
  | JsNumber.nan => JsNumber.nan

/-- `((x % 360) + 360) % 360` on a full JavaScript number: NaN whenever `x`
is NaN or an infinity. -/
def hueMod360N (x : JsNumber) : JsNumber :=
  jsRemN (jsAddN (jsRemN x 360) 360) 360

/-- `clamp01` of the source applied to an arbitrary parsed JSON value: the
`Number.isNaN` guard never fires (its argument is never the NaN number), the
value then coerces inside `Math.min`/`Math.max`; a non-numeric value escapes
as NaN, while infinities are clamped to the interval ends. -/
def clamp01N (v : JsVal) : JsNumber :=
  if jsValIsNaN v then JsNumber.finite 0
  else jsMaxN (JsNumber.finite 0) (jsMinN (JsNumber.finite 1) v.toNumber)

/-- `clampInt` of the source applied to an arbitrary parsed JSON value:
`Math.round`, then clamp into `[lo, hi]`; a non-numeric value escapes as
NaN, while infinities are clamped to the interval ends. -/
def clampIntN (v : JsVal) (lo hi : ℤ) : JsNumber :=
  jsMaxN (JsNumber.finite (lo : ℚ)) (jsMinN (JsNumber.finite (hi : ℚ)) (jsRoundN v.toNumber))

/-- `normalizeHueRange` of the source on arbitrary parsed JSON endpoint
values: each endpoint taken modulo 360; a non-finite endpoint becomes NaN. -/
def normalizeHueRangeN (range : JsVal × JsVal) : JsNumber × JsNumber :=
  (hueMod360N range.1.toNumber, hueMod360N range.2.toNumber)

/-- The record produced by `JSON.parse(json) as Partial<RedDetectionTuning>`
at full ECMAScript fidelity: each present field is an arbitrary parsed JSON
value (finite number, overflowed infinity, or non-numeric). -/
structure JsParsedTuning where
  sMin : Option JsVal
  vMin : Option JsVal
  hueA : Option (JsVal × JsVal)
  hueB : Option (JsVal × JsVal)
  dilateRadius : Option JsVal
  inpaintRadius : Option JsVal
deriving DecidableEq, Repr

/-- The tuning record the source constructs, at full ECMAScript fidelity:
each field is a JavaScript number that may be NaN. -/
structure JsRedDetectionTuning where
  sMin : JsNumber
  vMin : JsNumber
  hueA : JsNumber × JsNumber
  hueB : JsNumber × JsNumber
  dilateRadius : JsNumber
  inpaintRadius : JsNumber
deriving DecidableEq, Repr

/-- The embedding of a finite-valued parse record into the full JSON-value
domain. -/
def jsOfParsedTuning (p : ParsedTuning) : JsParsedTuning :=
  { sMin := p.sMin.map JsVal.num
    vMin := p.vMin.map JsVal.num
    hueA := p.hueA.map (fun r => (JsVal.num r.1, JsVal.num r.2))
    hueB := p.hueB.map (fun r => (JsVal.num r.1, JsVal.num r.2))
    dilateRadius := p.dilateRadius.map JsVal.num
    inpaintRadius := p.inpaintRadius.map JsVal.num }

/-- The embedding of a finite-valued tuning profile into the full
JavaScript-number domain. -/
def jsOfRedTuning (t : RedDetectionTuning) : JsRedDetectionTuning :=
  { sMin := JsNumber.finite t.sMin
    vMin := JsNumber.finite t.vMin
    hueA := (JsNumber.finite t.hueA.1, JsNumber.finite t.hueA.2)
    hueB := (JsNumber.finite t.hueB.1, JsNumber.finite t.hueB.2)
    dilateRadius := JsNumber.finite (t.dilateRadius : ℚ)
    inpaintRadius := JsNumber.finite (t.inpaintRadius : ℚ) }

/-- The record construction of `getTuningFromGemini` after a successful
parse, at full ECMAScript fidelity: each field defaults individually
(`?? DEFAULT_TUNING.field`, the defaults being finite numbers) and is then
clamped/normalized by the full-domain clamp helpers. -/
def applyParsedTuningJs (p : JsParsedTuning) : JsRedDetectionTuning :=
  { sMin := clamp01N (p.sMin.getD (JsVal.num DEFAULT_TUNING.sMin))
    vMin := clamp01N (p.vMin.getD (JsVal.num DEFAULT_TUNING.vMin))
    hueA := normalizeHueRangeN
      (p.hueA.getD (JsVal.num DEFAULT_TUNING.hueA.1, JsVal.num DEFAULT_TUNING.hueA.2))
    hueB := normalizeHueRangeN
      (p.hueB.getD (JsVal.num DEFAULT_TUNING.hueB.1, JsVal.num DEFAULT_TUNING.hueB.2))
    dilateRadius := clampIntN
      (p.dilateRadius.getD (JsVal.num (DEFAULT_TUNING.dilateRadius : ℚ))) 0 3
    inpaintRadius := clampIntN
      (p.inpaintRadius.getD (JsVal.num (DEFAULT_TUNING.inpaintRadius : ℚ))) 1 5 }

/-- `getTuningFromGemini` of the source at full ECMAScript fidelity: the
same cascade as `getTuningFromGemini`, but the parse result may carry
overflowed infinities and non-numeric values; every failure path returns
the raw default profile (whose numbers are all finite). -/
def getTuningFromGeminiJs (parseJson : List Char → Option JsParsedTuning)
    (response : Option (List Char)) : JsRedDetectionTuning :=
  match response with
  | none => jsOfRedTuning DEFAULT_TUNING
  | some text =>
    match extractJsonObject text with
    | none => jsOfRedTuning DEFAULT_TUNING
    | some span =>
      match parseJson span with
      | none => jsOfRedTuning DEFAULT_TUNING
      | some p => applyParsedTuningJs p

/-- The JavaScript number `x` is a finite value in `[lo, hi]`. -/
def jsNumInRange (x : JsNumber) (lo hi : ℚ) : Prop :=
  ∃ q : ℚ, x = JsNumber.finite q ∧ lo ≤ q ∧ q ≤ hi

/-- The JavaScript number `x` is a finite value in `[lo, hi)`. -/
def jsNumInRangeLt (x : JsNumber) (lo hi : ℚ) : Prop :=
  ∃ q : ℚ, x = JsNumber.finite q ∧ lo ≤ q ∧ q < hi

/-- The JavaScript number `x` is a finite integer in `[lo, hi]`. -/
def jsIntInRange (x : JsNumber) (lo hi : ℤ) : Prop :=
  ∃ k : ℤ, x = JsNumber.finite (k : ℚ) ∧ lo ≤ k ∧ k ≤ hi

/-- What actually holds of every resolved profile at full ECMAScript
fidelity: each field is within its stated range or is NaN — `sMin`, `vMin`
finite in `[0, 1]` or NaN; `hueA` endpoints and the `hueB` lower endpoint
finite in `[0, 360)` or NaN; the `hueB` upper endpoint finite in `[0, 360]`
(the literal 360 arising only from the raw default) or NaN; the radii finite
integers in their ranges or NaN. -/
def jsTuningRangesOrNaN (t : JsRedDetectionTuning) : Prop :=
  (jsNumInRange t.sMin 0 1 ∨ t.sMin = JsNumber.nan) ∧
    (jsNumInRange t.vMin 0 1 ∨ t.vMin = JsNumber.nan) ∧
    (jsNumInRangeLt t.hueA.1 0 360 ∨ t.hueA.1 = JsNumber.nan) ∧
    (jsNumInRangeLt t.hueA.2 0 360 ∨ t.hueA.2 = JsNumber.nan) ∧
    (jsNumInRangeLt t.hueB.1 0 360 ∨ t.hueB.1 = JsNumber.nan) ∧
    (jsNumInRange t.hueB.2 0 360 ∨ t.hueB.2 = JsNumber.nan) ∧
    (jsIntInRange t.dilateRadius 0 3 ∨ t.dilateRadius = JsNumber.nan) ∧
    (jsIntInRange t.inpaintRadius 1 5 ∨ t.inpaintRadius = JsNumber.nan)

/-- `PDFViewer.FileProcessingState` of the source (the fields mutated by the
batch pipeline), with rasters abstracted to a type `α` and the empty-string
sentinels `''` modelled as `none`/`\"\"`. -/
structure FileProcessingState (α : Type) where
  currentImageData : Option α
  processedImageData : Option α
  processedPages : List α
  previewPageIndex : ℕ
  batchCurrent : ℕ
  batchTotal : ℕ
  totalPages : ℕ
  isBatchProcessing : Bool
  error : String
deriving DecidableEq, Repr

/-- `createInitialFileState` of the source. -/
def createInitialFileState {α : Type} : FileProcessingState α :=
  { currentImageData := none
    processedImageData := none
    processedPages := []
    previewPageIndex := 0
    batchCurrent := 0
    batchTotal := 0
    totalPages := 0
    isBatchProcessing := false
    error := "" }

/-- The page loop of `processSingleFile`: `pageNumber` counts from 1; each
successful page appends its cleaned raster to the local `processed` array and
advances the progress counter; the first failing page throws, reaching the
catch block which records only the error message (the local `processed`
array is abandoned); when every page succeeds the commit block publishes the
whole array. -/
def processPagesGo {α : Type} (total : ℕ) (st : FileProcessingState α) (acc : List α)
    (pageNumber : ℕ) : List (Except String α) → FileProcessingState α
  | [] =>
    { st with
      processedPages := acc
      processedImageData := acc.head?
      previewPageIndex := 0
      error := "" }
  | Except.ok img :: rest =>
    processPagesGo total
      { st with batchCurrent := pageNumber, batchTotal := total }
      (acc ++ [img]) (pageNumber + 1) rest
  | Except.error msg :: _ => { st with error := msg }

/-- `processSingleFile` of the source for one document, with each page's
render-and-clean outcome given as `Except String α` (`Except.error msg`
covers a rasterization failure or a failed `removeRedMarkings` result for
that page).  The state is first reset, the page count published, the page
loop run, and the finally block clears the processing flag. -/
def processSingleFile {α : Type} (prev : FileProcessingState α)
    (pages : List (Except String α)) : FileProcessingState α :=
  let total := pages.length
  let st0 :=
    { prev with
      isBatchProcessing := true
      error := ""
      processedPages := []
      processedImageData := none
      previewPageIndex := 0
      batchCurrent := 0
      batchTotal := 0 }
  let st1 := { st0 with totalPages := total, batchCurrent := 0, batchTotal := total }
  { processPagesGo total st1 [] 1 pages with isBatchProcessing := false }

/-- The loop of `handleProcessAllFiles`: documents are processed one after
the other, each awaited to completion (`processSingleFile` never throws, so
the loop always reaches every document). -/
def processAllFiles {α : Type} :
    List (FileProcessingState α × List (Except String α)) → List (FileProcessingState α)
  | [] => []
  | (prev, pages) :: rest => processSingleFile prev pages :: processAllFiles rest

/-- The response text of concrete scenario C of the spec. -/
def scenarioText : List Char :=
  "here you go ```\x7b\"sMin\":2,\"hueA\":[370,10]\x7d```".toList

/-- The top-level JSON span contained in `scenarioText`. -/
def scenarioSpan : List Char :=
  "\x7b\"sMin\":2,\"hueA\":[370,10]\x7d".toList

/-- The record `JSON.parse` produces for `scenarioSpan`: the fields `sMin = 2`
and `hueA = [370, 10]` are present, every other field is absent. -/
def scenarioParsed : ParsedTuning :=
  { sMin := some 2
    vMin := none
    hueA := some (370, 10)
    hueB := none
    dilateRadius := none
    inpaintRadius := none }

/-- A concrete stand-in for `JSON.parse` that parses exactly `scenarioSpan`
to `scenarioParsed`. -/
def scenarioParse : List Char → Option ParsedTuning :=
  fun s => if s = scenarioSpan then some scenarioParsed else none

/-- A response text that is itself a single JSON object whose `hueA` lower
endpoint is the number literal `1e999`, which overflows to `Infinity` when
parsed. -/
def overflowText : List Char :=
  "\x7b\"hueA\":[1e999,10]\x7d".toList

/-- The record `JSON.parse` produces for `overflowText`: the field `hueA` is
present with first endpoint `Infinity` (the overflowed `1e999`) and second
endpoint `10`; every other field is absent. -/
def overflowParsed : JsParsedTuning :=
  { sMin := none
    vMin := none
    hueA := some (JsVal.posInf, JsVal.num 10)
    hueB := none
    dilateRadius := none
    inpaintRadius := none }

/-- A concrete stand-in for `JSON.parse` that parses exactly `overflowText`
to `overflowParsed`. -/
def overflowParse : List Char → Option JsParsedTuning :=
  fun s => if s = overflowText then some overflowParsed else none

/-- Validity ranges the resolved profile actually satisfies: `sMin`, `vMin`
in `[0,1]`; hue endpoints in `[0,360)` except the default `hueB` upper
endpoint, which is the literal `360`; `dilateRadius ∈ [0,3]`;
`inpaintRadius ∈ [1,5]`. -/
def tuningRangesAmended (t : RedDetectionTuning) : Prop :=
  (0 ≤ t.sMin ∧ t.sMin ≤ 1) ∧ (0 ≤ t.vMin ∧ t.vMin ≤ 1) ∧
    (0 ≤ t.hueA.1 ∧ t.hueA.1 < 360) ∧ (0 ≤ t.hueA.2 ∧ t.hueA.2 < 360) ∧
    (0 ≤ t.hueB.1 ∧ t.hueB.1 < 360) ∧ (0 ≤ t.hueB.2 ∧ t.hueB.2 ≤ 360) ∧
    (0 ≤ t.dilateRadius ∧ t.dilateRadius ≤ 3) ∧
    (1 ≤ t.inpaintRadius ∧ t.inpaintRadius ≤ 5)

/-- A constant red-ish buffer with partial alpha, used as a concrete input. -/
def data1 : Buf := fun _ => ⟨200, 0, 0, 128⟩

/-- The all-set mask. -/
def maskAll : Mask := fun _ => true

/-- The empty mask. -/
def maskNone : Mask := fun _ => false

/-- The mask whose only set pixel is `(1, 1)`. -/
def maskCenter : Mask := fun q => decide (q = (1, 1))

/-- A 3-page document whose page 2 fails. -/
def badDoc : List (Except String ℕ) :=
  [Except.ok 11, Except.error "page 2 failed", Except.ok 13]

/-! ## Helper lemmas -/

lemma inHueRange_eq_true_iff (h a b : ℚ) :
    inHueRange h a b = true ↔ hueMemberClosed h a b := by
  unfold inHueRange hueMemberClosed
  by_cases hab : a ≤ b <;> simp [hab]

lemma jsRem360_lower (x : ℚ) : -360 < jsRem x 360 := by
  unfold jsRem jsTrunc
  by_cases hx : 0 ≤ x / 360
  · rw [if_pos hx]
    have h1 : (⌊x / 360⌋ : ℚ) ≤ x / 360 := Int.floor_le _
    nlinarith
  · rw [if_neg hx]
    have h2 : x / 360 ≤ (⌈x / 360⌉ : ℚ) := Int.le_ceil _
    have h3 : (⌈x / 360⌉ : ℚ) < x / 360 + 1 := Int.ceil_lt_add_one _
    nlinarith

lemma jsRem360_nonneg_bounds (x : ℚ) (hx : 0 ≤ x) :
    0 ≤ jsRem x 360 ∧ jsRem x 360 < 360 := by
  unfold jsRem jsTrunc
  have hq : 0 ≤ x / 360 := by positivity
  rw [if_pos hq]
  have h1 : (⌊x / 360⌋ : ℚ) ≤ x / 360 := Int.floor_le _
  have h2 : x / 360 < (⌊x / 360⌋ : ℚ) + 1 := Int.lt_floor_add_one _
  constructor <;> nlinarith

lemma hueMod360_bounds (x : ℚ) : 0 ≤ hueMod360 x ∧ hueMod360 x < 360 := by
  unfold hueMod360
  exact jsRem360_nonneg_bounds _ (by have := jsRem360_lower x; linarith)

lemma clamp01_bounds (v : ℚ) : 0 ≤ clamp01 v ∧ clamp01 v ≤ 1 := by
  unfold clamp01
  constructor
  · exact le_max_left _ _
  · exact max_le (by norm_num) (min_le_left _ _)

lemma clampInt_bounds (v : ℚ) (lo hi : ℤ) (hlohi : lo ≤ hi) :
    lo ≤ clampInt v lo hi ∧ clampInt v lo hi ≤ hi := by
  unfold clampInt
  constructor
  · exact le_max_left _ _
  · exact max_le hlohi (min_le_left _ _)

/-! ## Claim theorems: detection -/

/-- C2 counterexample: the pixel `(240,100,0,255)` has hue exactly 25 with
`s = 1` and `v = 16/17`, both above the default thresholds.  The source's
`inHueRange` uses a closed interval and classifies it as foreign ink, while
the half-open interpretation claimed by the spec does not. -/
theorem c2_counterexample :
    detectPixel DEFAULT_TUNING ⟨240, 100, 0, 255⟩ = true ∧
      specClassifyHalfOpen DEFAULT_TUNING ⟨240, 100, 0, 255⟩ = false := by
  constructor
  · norm_num [detectPixel, DEFAULT_TUNING, rgbToHsv, jsRem, jsTrunc, max_def, min_def,
      inHueRange]
  · norm_num [specClassifyHalfOpen, DEFAULT_TUNING, rgbToHsv, jsRem, jsTrunc, max_def,
      min_def, specHueMemberHalfOpen]

/-- C2 amended: for every profile and pixel, the detector classifies the
pixel as foreign ink iff its alpha is at least 10 and, after converting RGB
(channels normalized to [0,1]) to HSV by the standard max/min/delta
construction, `s ≥ sMin`, `v ≥ vMin`, and the hue lies in `hueA` or `hueB`,
where a range with lower ≤ upper is the CLOSED interval `[lower, upper]` and
a range with lower > upper wraps with test `h ≥ lower OR h ≤ upper`. -/
theorem c2_amended (t : RedDetectionTuning) (p : Pix) :
    detectPixel t p = true ↔
      10 ≤ p.a ∧
        (t.sMin ≤ (rgbToHsv ((p.r : ℚ) / 255) ((p.g : ℚ) / 255) ((p.b : ℚ) / 255)).s ∧
          t.vMin ≤ (rgbToHsv ((p.r : ℚ) / 255) ((p.g : ℚ) / 255) ((p.b : ℚ) / 255)).v ∧
          (hueMemberClosed (rgbToHsv ((p.r : ℚ) / 255) ((p.g : ℚ) / 255) ((p.b : ℚ) / 255)).h
              t.hueA.1 t.hueA.2 ∨
            hueMemberClosed (rgbToHsv ((p.r : ℚ) / 255) ((p.g : ℚ) / 255) ((p.b : ℚ) / 255)).h
              t.hueB.1 t.hueB.2)) := by
  unfold detectPixel
  by_cases ha : p.a < 10
  · simp only [if_pos ha]
    constructor
    · intro hfalse
      exact absurd hfalse (by simp)
    · rintro ⟨h10, -⟩
      omega
  · simp only [if_neg ha]
    by_cases hsv : (rgbToHsv ((p.r : ℚ) / 255) ((p.g : ℚ) / 255) ((p.b : ℚ) / 255)).s < t.sMin ∨
        (rgbToHsv ((p.r : ℚ) / 255) ((p.g : ℚ) / 255) ((p.b : ℚ) / 255)).v < t.vMin
    · simp only [if_pos hsv]
      constructor
      · intro hfalse
        exact absurd hfalse (by simp)
      · rintro ⟨-, hs, hv, -⟩
        rcases hsv with hlt | hlt
        · exact absurd hs (not_le.mpr hlt)
        · exact absurd hv (not_le.mpr hlt)
    · simp only [if_neg hsv]
      push_neg at hsv
      simp only [Bool.or_eq_true, inHueRange_eq_true_iff]
      constructor
      · intro hmem
        exact ⟨by omega, hsv.1, hsv.2, hmem⟩
      · rintro ⟨-, -, -, hmem⟩
        exact hmem

/-- C10: every pixel with alpha strictly below 10 is never classified as
foreign ink under any profile, and alpha 10 itself is processed: a pure red
pixel with alpha 10 is classified under the default profile, so the discard
threshold is exactly 10. -/
theorem c10_alpha_threshold :
    (∀ (t : RedDetectionTuning) (p : Pix), p.a < 10 → detectPixel t p = false) ∧
      detectPixel DEFAULT_TUNING ⟨255, 0, 0, 10⟩ = true := by
  constructor
  · intro t p hp
    unfold detectPixel
    simp [hp]
  · norm_num [detectPixel, DEFAULT_TUNING, rgbToHsv, jsRem, jsTrunc, max_def, min_def,
      inHueRange]

/-- Witness for C10 at a concrete transparent pixel. -/
theorem c10_alpha_threshold_witness :
    (5 < 10 ∧ detectPixel DEFAULT_TUNING ⟨255, 0, 0, 5⟩ = false) := by
  exact ⟨by decide, c10_alpha_threshold.1 DEFAULT_TUNING ⟨255, 0, 0, 5⟩ (by decide)⟩

/-! ## Claim theorems: tuning resolution -/

lemma tuningRangesAmended_default : tuningRangesAmended DEFAULT_TUNING := by
  norm_num [tuningRangesAmended, DEFAULT_TUNING]

lemma tuningRangesAmended_apply (p : ParsedTuning) :
    tuningRangesAmended (applyParsedTuning p) := by
  unfold tuningRangesAmended applyParsedTuning normalizeHueRange
  refine ⟨clamp01_bounds _, clamp01_bounds _, ?_, ?_, ?_, ?_, ?_, ?_⟩
  · exact hueMod360_bounds _
  · exact hueMod360_bounds _
  · exact hueMod360_bounds _
  · exact ⟨(hueMod360_bounds _).1, le_of_lt (hueMod360_bounds _).2⟩
  · exact clampInt_bounds _ 0 3 (by decide)
  · exact clampInt_bounds _ 1 5 (by decide)

/-- C7 counterexample: on scenario C's response text, the resolved profile's
`hueB` is `(330, 0)` — the default `(330, 360)` re-normalized modulo 360 —
and therefore NOT equal to the default profile's `hueB` field, contrary to
the claim that all fields other than `sMin` and `hueA` equal the default. -/
theorem c7_counterexample :
    (getTuningFromGemini scenarioParse (some scenarioText)).hueB = (330, 0) ∧
      DEFAULT_TUNING.hueB = (330, 360) ∧
      (getTuningFromGemini scenarioParse (some scenarioText)).hueB ≠ DEFAULT_TUNING.hueB := by
  have he : extractJsonObject scenarioText = some scenarioSpan := by decide
  have hp : scenarioParse scenarioSpan = some scenarioParsed := by decide
  have hres : getTuningFromGemini scenarioParse (some scenarioText) =
      applyParsedTuning scenarioParsed := by
    simp only [getTuningFromGemini, he, hp]
  have hhueB : (applyParsedTuning scenarioParsed).hueB = (330, 0) := by
    norm_num [applyParsedTuning, scenarioParsed, DEFAULT_TUNING, normalizeHueRange,
      hueMod360, jsRem, jsTrunc, Prod.ext_iff]
  refine ⟨hres ▸ hhueB, rfl, ?_⟩
  rw [hres, hhueB]
  norm_num [DEFAULT_TUNING, Prod.ext_iff]

/-- C7 amended: every no-suggestion and failure path (absent response, no
top-level brace span, unparseable span) returns exactly the default profile;
on scenario C's response, the profile has `sMin = 1.0`, `hueA = (10, 10)`,
`vMin`, `dilateRadius`, `inpaintRadius` equal to the default fields, but
`hueB = (330, 0)`: the default `(330, 360)` re-normalized modulo 360
(370→10, 360→0), since defaulted fields also pass through
`normalizeHueRange`. -/
theorem c7_amended :
    (∀ parse, getTuningFromGemini parse none = DEFAULT_TUNING) ∧
      (∀ parse text, extractJsonObject text = none →
        getTuningFromGemini parse (some text) = DEFAULT_TUNING) ∧
      (∀ parse text span, extractJsonObject text = some span → parse span = none →
        getTuningFromGemini parse (some text) = DEFAULT_TUNING) ∧
      (∀ parse, parse scenarioSpan = some scenarioParsed →
        getTuningFromGemini parse (some scenarioText) =
          { sMin := 1
            vMin := 25 / 100
            hueA := (10, 10)
            hueB := (330, 0)
            dilateRadius := 1
            inpaintRadius := 2 }) := by
  refine ⟨fun parse => rfl, ?_, ?_, ?_⟩
  · intro parse text hE
    simp only [getTuningFromGemini, hE]
  · intro parse text span hE hP
    simp only [getTuningFromGemini, hE, hP]
  · intro parse hP
    have he : extractJsonObject scenarioText = some scenarioSpan := by decide
    simp only [getTuningFromGemini, he, hP]
    norm_num [applyParsedTuning, scenarioParsed, DEFAULT_TUNING, normalizeHueRange,
      hueMod360, jsRem, jsTrunc, clamp01, clampInt, jsRound, max_def, min_def,
      RedDetectionTuning.mk.injEq, Prod.ext_iff]

/-- Witness for C7's amended theorem at the concrete parse function
`scenarioParse`. -/
theorem c7_amended_witness :
    getTuningFromGemini scenarioParse (some scenarioText) =
      { sMin := 1
        vMin := 25 / 100
        hueA := (10, 10)
        hueB := (330, 0)
        dilateRadius := 1
        inpaintRadius := 2 } :=
  c7_amended.2.2.2 scenarioParse (by decide)

lemma clamp01N_num (q : ℚ) : clamp01N (JsVal.num q) = JsNumber.finite (clamp01 q) := rfl

lemma clamp01N_ranges (v : JsVal) :
    jsNumInRange (clamp01N v) 0 1 ∨ clamp01N v = JsNumber.nan := by
  cases v with
  | num q =>
    exact Or.inl ⟨clamp01 q, clamp01N_num q, (clamp01_bounds q).1, (clamp01_bounds q).2⟩
  | posInf => exact Or.inl ⟨max 0 1, rfl, by norm_num, by norm_num⟩
  | negInf => exact Or.inl ⟨0, rfl, le_refl 0, by norm_num⟩
  | nonNumeric => exact Or.inr rfl

lemma hueMod360N_num (q : ℚ) :
    hueMod360N (JsNumber.finite q) = JsNumber.finite (hueMod360 q) := rfl

lemma hueMod360N_ranges (x : JsNumber) :
    jsNumInRangeLt (hueMod360N x) 0 360 ∨ hueMod360N x = JsNumber.nan := by
  cases x with
  | finite q =>
    exact Or.inl ⟨hueMod360 q, hueMod360N_num q, (hueMod360_bounds q).1,
      (hueMod360_bounds q).2⟩
  | posInf => exact Or.inr rfl
  | negInf => exact Or.inr rfl
  | nan => exact Or.inr rfl

lemma clampIntN_num (q : ℚ) (lo hi : ℤ) :
    clampIntN (JsVal.num q) lo hi = JsNumber.finite ((clampInt q lo hi : ℤ) : ℚ) := by
  show JsNumber.finite (max (lo : ℚ) (min (hi : ℚ) ((jsRound q : ℤ) : ℚ))) =
    JsNumber.finite ((clampInt q lo hi : ℤ) : ℚ)
  unfold clampInt
  push_cast
  rfl

lemma clampIntN_ranges (v : JsVal) (lo hi : ℤ) (hlohi : lo ≤ hi) :
    jsIntInRange (clampIntN v lo hi) lo hi ∨ clampIntN v lo hi = JsNumber.nan := by
  cases v with
  | num q =>
    exact Or.inl ⟨clampInt q lo hi, clampIntN_num q lo hi,
      (clampInt_bounds q lo hi hlohi).1, (clampInt_bounds q lo hi hlohi).2⟩
  | posInf =>
    refine Or.inl ⟨hi, ?_, hlohi, le_refl hi⟩
    show JsNumber.finite (max (lo : ℚ) (hi : ℚ)) = JsNumber.finite (hi : ℚ)
    rw [max_eq_right (by exact_mod_cast hlohi)]
  | negInf => exact Or.inl ⟨lo, rfl, le_refl lo, hlohi⟩
  | nonNumeric => exact Or.inr rfl

lemma jsApply_rangesOrNaN (p : JsParsedTuning) :
    jsTuningRangesOrNaN (applyParsedTuningJs p) := by
  unfold jsTuningRangesOrNaN applyParsedTuningJs normalizeHueRangeN
  refine ⟨clamp01N_ranges _, clamp01N_ranges _, hueMod360N_ranges _, hueMod360N_ranges _,
    hueMod360N_ranges _, ?_, clampIntN_ranges _ 0 3 (by decide),
    clampIntN_ranges _ 1 5 (by decide)⟩
  rcases hueMod360N_ranges
      ((p.hueB.getD (JsVal.num DEFAULT_TUNING.hueB.1, JsVal.num DEFAULT_TUNING.hueB.2)).2.toNumber)
    with ⟨q, hq, h0, h360⟩ | hnan
  · exact Or.inl ⟨q, hq, h0, le_of_lt h360⟩
  · exact Or.inr hnan

lemma jsDefault_rangesOrNaN : jsTuningRangesOrNaN (jsOfRedTuning DEFAULT_TUNING) := by
  unfold jsTuningRangesOrNaN jsOfRedTuning DEFAULT_TUNING
  exact ⟨Or.inl ⟨35 / 100, rfl, by norm_num, by norm_num⟩,
    Or.inl ⟨25 / 100, rfl, by norm_num, by norm_num⟩,
    Or.inl ⟨0, rfl, le_refl 0, by norm_num⟩,
    Or.inl ⟨25, rfl, by norm_num, by norm_num⟩,
    Or.inl ⟨330, rfl, by norm_num, by norm_num⟩,
    Or.inl ⟨360, rfl, by norm_num, le_refl 360⟩,
    Or.inl ⟨1, rfl, by norm_num, by norm_num⟩,
    Or.inl ⟨2, rfl, by norm_num, by norm_num⟩⟩

/-- C8 counterexample: three concrete escapes from the claimed ranges.  On
the failure path (no response) the resolved profile is the raw default,
whose `hueB` upper endpoint is the literal 360, not in `[0, 360)`; a
non-numeric JSON field value (e.g. the string `"abc"` for `sMin`) passes the
source's `clamp01` as NaN rather than a number in `[0, 1]`; and the response
`\x7b"hueA":[1e999,10]\x7d` — whose present field IS a JSON number literal,
overflowing to `Infinity` when parsed — resolves to a profile whose `hueA`
lower endpoint is NaN (`Infinity % 360` is NaN), outside every interval. -/
theorem c8_counterexample :
    (getTuningFromGeminiJs overflowParse none).hueB.2 = JsNumber.finite 360 ∧
      ¬ (360 : ℚ) < 360 ∧
      clamp01N JsVal.nonNumeric = JsNumber.nan ∧
      (getTuningFromGeminiJs overflowParse (some overflowText)).hueA.1 = JsNumber.nan := by
  refine ⟨rfl, by norm_num, rfl, ?_⟩
  have he : extractJsonObject overflowText = some overflowText := by decide
  have hp : overflowParse overflowText = some overflowParsed := by decide
  simp only [getTuningFromGeminiJs, he, hp]
  rfl

/-- C8 amended: at full ECMAScript fidelity, for every parse function and
every response, each field of the resolved profile is within its stated
range or is NaN: `sMin`, `vMin` finite in `[0,1]` or NaN (NaN arising from a
non-numeric field value); the `hueA` endpoints and the `hueB` lower endpoint
finite in `[0,360)` or NaN, and the `hueB` upper endpoint finite in
`[0,360]` or NaN (the literal 360 arising only from the raw default that
every failure path returns; NaN arising from a non-finite endpoint, e.g. the
overflowed JSON literal `1e999`); the radii finite integers in `[0,3]` resp.
`[1,5]` or NaN.  On parse results whose present fields are finite numbers,
the full-fidelity resolution agrees exactly with the rational-valued model,
whose resolved fields always lie within the stated ranges. -/
theorem c8_amended :
    (∀ (parse : List Char → Option JsParsedTuning) (response : Option (List Char)),
      jsTuningRangesOrNaN (getTuningFromGeminiJs parse response)) ∧
      (∀ p : ParsedTuning,
        applyParsedTuningJs (jsOfParsedTuning p) = jsOfRedTuning (applyParsedTuning p)) ∧
      (∀ (parse : List Char → Option ParsedTuning) (response : Option (List Char)),
        tuningRangesAmended (getTuningFromGemini parse response)) := by
  refine ⟨?_, ?_, ?_⟩
  · intro parse response
    unfold getTuningFromGeminiJs
    cases response with
    | none => exact jsDefault_rangesOrNaN
    | some text =>
      cases hE : extractJsonObject text with
      | none =>
        simp only [hE]
        exact jsDefault_rangesOrNaN
      | some span =>
        cases hP : parse span with
        | none =>
          simp only [hE, hP]
          exact jsDefault_rangesOrNaN
        | some p =>
          simp only [hE, hP]
          exact jsApply_rangesOrNaN p
  · intro p
    obtain ⟨ps, pv, pa, pb, pd, pi⟩ := p
    unfold applyParsedTuningJs jsOfParsedTuning jsOfRedTuning applyParsedTuning
      normalizeHueRangeN normalizeHueRange
    simp only [JsRedDetectionTuning.mk.injEq]
    refine ⟨?_, ?_, ?_, ?_, ?_, ?_⟩
    · cases ps <;> rfl
    · cases pv <;> rfl
    · cases pa <;> rfl
    · cases pb <;> rfl
    · cases pd <;> exact clampIntN_num _ 0 3
    · cases pi <;> exact clampIntN_num _ 1 5
  · intro parse response
    unfold getTuningFromGemini
    cases response with
    | none => exact tuningRangesAmended_default
    | some text =>
      cases hE : extractJsonObject text with
      | none =>
        simp only [hE]
        exact tuningRangesAmended_default
      | some span =>
        cases hP : parse span with
        | none =>
          simp only [hE, hP]
          exact tuningRangesAmended_default
        | some p =>
          simp only [hE, hP]
          exact tuningRangesAmended_apply p

/-! ## Claim theorems: batch orchestration -/

lemma processPagesGo_error {α : Type} (total : ℕ) (msg : String)
    (tail : List (Except String α)) :
    ∀ (pre : List α) (st : FileProcessingState α) (acc : List α) (n : ℕ),
      st.batchTotal = total → st.batchCurrent + 1 = n →
      processPagesGo total st acc n (pre.map Except.ok ++ Except.error msg :: tail) =
        { st with batchCurrent := st.batchCurrent + pre.length, error := msg } := by
  intro pre
  induction pre with
  | nil =>
    intro st acc n hT hC
    obtain ⟨ci, pi, pp, ppi, bc, bt, tp, ib, er⟩ := st
    simp [processPagesGo]
  | cons x pre ih =>
    intro st acc n hT hC
    simp only [List.map_cons, List.cons_append, processPagesGo, List.append_eq]
    rw [ih { st with batchCurrent := n, batchTotal := total } (acc ++ [x]) (n + 1) rfl rfl]
    obtain ⟨ci, pi, pp, ppi, bc, bt, tp, ib, er⟩ := st
    simp only at hT hC ⊢
    simp [hT, List.length_cons]
    omega

lemma processPagesGo_ok {α : Type} (total : ℕ) :
    ∀ (rs : List α) (st : FileProcessingState α) (acc : List α) (n : ℕ),
      st.batchTotal = total → st.batchCurrent + 1 = n →
      processPagesGo total st acc n (rs.map Except.ok) =
        { st with
          batchCurrent := st.batchCurrent + rs.length
          processedPages := acc ++ rs
          processedImageData := (acc ++ rs).head?
          previewPageIndex := 0
          error := "" } := by
  intro rs
  induction rs with
  | nil =>
    intro st acc n hT hC
    obtain ⟨ci, pi, pp, ppi, bc, bt, tp, ib, er⟩ := st
    simp [processPagesGo]
  | cons x rs ih =>
    intro st acc n hT hC
    simp only [List.map_cons, processPagesGo, List.append_eq]
    rw [ih { st with batchCurrent := n, batchTotal := total } (acc ++ [x]) (n + 1) rfl rfl]
    obtain ⟨ci, pi, pp, ppi, bc, bt, tp, ib, er⟩ := st
    simp only at hT hC ⊢
    simp [hT, List.length_cons, List.append_assoc]
    omega

/-- C1 counterexample: for a 3-page document whose page 2 fails, the job is
marked failed with the raised message and stops, but the result of page 1 is
NOT retained — the job's result list is empty. -/
theorem c1_counterexample :
    (processSingleFile createInitialFileState badDoc).error = "page 2 failed" ∧
      (processSingleFile createInitialFileState badDoc).processedPages = [] ∧
      (11 : ℕ) ∉ (processSingleFile createInitialFileState badDoc).processedPages := by
  refine ⟨rfl, rfl, ?_⟩
  intro hmem
  simp only [show (processSingleFile createInitialFileState badDoc).processedPages = []
    from rfl] at hmem
  exact absurd hmem (List.not_mem_nil 11)

/-- C1 amended: when processing a document whose pages are `pre` successes
followed by a failing page with message `msg` and an arbitrary unattempted
tail, the job stops (the final state depends on the tail only through the
page count), is marked failed with exactly `msg`, and the progress counter
retains the number of completed pages — but the results of the completed
pages are discarded: the job's result list is empty. -/
theorem c1_amended {α : Type} (prev : FileProcessingState α) (pre : List α)
    (msg : String) (tail : List (Except String α)) :
    processSingleFile prev (pre.map Except.ok ++ Except.error msg :: tail) =
      { currentImageData := prev.currentImageData
        processedImageData := none
        processedPages := []
        previewPageIndex := 0
        batchCurrent := pre.length
        batchTotal := pre.length + 1 + tail.length
        totalPages := pre.length + 1 + tail.length
        isBatchProcessing := false
        error := msg } := by
  have hgo :
      processPagesGo ((List.map Except.ok pre ++ Except.error msg :: tail).length)
        { currentImageData := prev.currentImageData
          processedImageData := none
          processedPages := []
          previewPageIndex := 0
          batchCurrent := 0
          batchTotal := (List.map Except.ok pre ++ Except.error msg :: tail).length
          totalPages := (List.map Except.ok pre ++ Except.error msg :: tail).length
          isBatchProcessing := true
          error := "" }
        [] 1 (List.map Except.ok pre ++ Except.error msg :: tail) =
      { currentImageData := prev.currentImageData
        processedImageData := none
        processedPages := []
        previewPageIndex := 0
        batchCurrent := 0 + pre.length
        batchTotal := (List.map Except.ok pre ++ Except.error msg :: tail).length
        totalPages := (List.map Except.ok pre ++ Except.error msg :: tail).length
        isBatchProcessing := true
        error := msg } :=
    processPagesGo_error _ msg tail pre _ [] 1 rfl rfl
  simp only [processSingleFile, hgo]
  simp [List.length_append, List.length_map]
  omega

/-- C9: batch orchestration isolates documents: the list of final states is
exactly the per-document map of `processSingleFile` (documents are processed
one after the other, each to completion, and `processSingleFile` never
throws); in particular for two documents where the first is arbitrary (for
example entirely failing), a second document whose pages all succeed still
reaches its done state with every page's reconstruction in its result
list. -/
theorem c9_batch_isolation :
    (∀ (α : Type) (docs : List (FileProcessingState α × List (Except String α))),
      processAllFiles docs = docs.map fun d => processSingleFile d.1 d.2) ∧
      (∀ (α : Type) (prev1 prev2 : FileProcessingState α)
        (d1 : List (Except String α)) (rs : List α),
        processAllFiles [(prev1, d1), (prev2, rs.map Except.ok)] =
          [processSingleFile prev1 d1,
            { currentImageData := prev2.currentImageData
              processedImageData := rs.head?
              processedPages := rs
              previewPageIndex := 0
              batchCurrent := rs.length
              batchTotal := rs.length
              totalPages := rs.length
              isBatchProcessing := false
              error := "" }]) := by
  constructor
  · intro α docs
    induction docs with
    | nil => rfl
    | cons d docs ih => simp [processAllFiles, ih]
  · intro α prev1 prev2 d1 rs
    have h2 : processSingleFile prev2 (rs.map Except.ok) =
        { currentImageData := prev2.currentImageData
          processedImageData := rs.head?
          processedPages := rs
          previewPageIndex := 0
          batchCurrent := rs.length
          batchTotal := rs.length
          totalPages := rs.length
          isBatchProcessing := false
          error := "" } := by
      have hgo :
          processPagesGo ((List.map (Except.ok : α → Except String α) rs).length)
            { currentImageData := prev2.currentImageData
              processedImageData := none
              processedPages := []
              previewPageIndex := 0
              batchCurrent := 0
              batchTotal := (List.map (Except.ok : α → Except String α) rs).length
              totalPages := (List.map (Except.ok : α → Except String α) rs).length
              isBatchProcessing := true
              error := "" }
            [] 1 (List.map (Except.ok : α → Except String α) rs) =
          { currentImageData := prev2.currentImageData
            processedImageData := ([] ++ rs).head?
            processedPages := [] ++ rs
            previewPageIndex := 0
            batchCurrent := 0 + rs.length
            batchTotal := (List.map (Except.ok : α → Except String α) rs).length
            totalPages := (List.map (Except.ok : α → Except String α) rs).length
            isBatchProcessing := true
            error := "" } :=
        processPagesGo_ok _ rs _ [] 1 rfl rfl
      simp only [processSingleFile, hgo]
      simp [List.length_map]
    simp [processAllFiles, h2]

/-! ## Helper lemmas: neighborhoods and masks -/

lemma mem_offsets {r : ℕ} {d : ℤ} : d ∈ offsets r ↔ -(r : ℤ) ≤ d ∧ d ≤ r := by
  unfold offsets
  rw [List.mem_map]
  constructor
  · rintro ⟨i, hi, rfl⟩
    rw [List.mem_range] at hi
    omega
  · rintro ⟨h1, h2⟩
    exact ⟨(d + r).toNat, List.mem_range.mpr (by omega), by omega⟩

lemma inBounds_iff {w h : ℕ} {nx ny : ℤ} :
    inBounds w h nx ny = true ↔ 0 ≤ nx ∧ 0 ≤ ny ∧ nx < (w : ℤ) ∧ ny < (h : ℤ) := by
  unfold inBounds
  simp [and_assoc]

lemma mem_allPixels {w h : ℕ} {p : ℕ × ℕ} : p ∈ allPixels w h ↔ p.1 < w ∧ p.2 < h := by
  unfold allPixels
  simp only [List.mem_flatMap, List.mem_map, List.mem_range]
  constructor
  · rintro ⟨y, hy, x, hx, rfl⟩
    exact ⟨hx, hy⟩
  · rintro ⟨h1, h2⟩
    exact ⟨p.2, h2, p.1, h1, rfl⟩

lemma mem_neighborList {w h r x y : ℕ} {q : ℕ × ℕ} :
    q ∈ neighborList w h r x y ↔
      q.1 < w ∧ q.2 < h ∧ -(r : ℤ) ≤ (q.1 : ℤ) - x ∧ (q.1 : ℤ) - x ≤ r ∧
        -(r : ℤ) ≤ (q.2 : ℤ) - y ∧ (q.2 : ℤ) - y ≤ r := by
  unfold neighborList
  simp only [List.mem_filterMap, List.mem_flatMap, List.mem_map, mem_offsets,
    Option.ite_none_right_eq_some, Option.some.injEq]
  constructor
  · rintro ⟨c, ⟨dy, hdy, dx, hdx, rfl⟩, hib, rfl⟩
    rw [inBounds_iff] at hib
    simp only
    omega
  · rintro ⟨h1, h2, h3, h4, h5, h6⟩
    refine ⟨((q.1 : ℤ), (q.2 : ℤ)), ⟨(q.2 : ℤ) - y, by omega, (q.1 : ℤ) - x, by omega, by
      simp only [Prod.mk.injEq]
      omega⟩, by rw [inBounds_iff]; omega, ?_⟩
    simp only [Prod.ext_iff]
    omega

lemma foldl_or_char {ι : Type} (F : Mask → ι → Mask) (C : ι → ℕ × ℕ → Prop)
    (hF : ∀ a d q, (F a d) q = true ↔ a q = true ∨ C d q) :
    ∀ (l : List ι) (acc : Mask) (q : ℕ × ℕ),
      (l.foldl F acc) q = true ↔ acc q = true ∨ ∃ d ∈ l, C d q := by
  intro l
  induction l with
  | nil => simp
  | cons d l ih =>
    intro acc q
    rw [List.foldl_cons, ih, hF]
    simp only [List.mem_cons]
    constructor
    · rintro ((ha | hc) | ⟨e, he, hc⟩)
      · exact Or.inl ha
      · exact Or.inr ⟨d, Or.inl rfl, hc⟩
      · exact Or.inr ⟨e, Or.inr he, hc⟩
    · rintro (ha | ⟨e, (rfl | he), hc⟩)
      · exact Or.inl (Or.inl ha)
      · exact Or.inl (Or.inr hc)
      · exact Or.inr ⟨e, he, hc⟩

lemma setNeighborhood_char (w h r x y : ℕ) (m : Mask) (q : ℕ × ℕ) :
    (setNeighborhood w h r x y m) q = true ↔
      m q = true ∨ (q.1 < w ∧ q.2 < h ∧ -(r : ℤ) ≤ (q.1 : ℤ) - x ∧ (q.1 : ℤ) - x ≤ r ∧
        -(r : ℤ) ≤ (q.2 : ℤ) - y ∧ (q.2 : ℤ) - y ≤ r) := by
  unfold setNeighborhood
  rw [foldl_or_char _
    (fun dy q' => ∃ dx ∈ offsets r, inBounds w h ((x : ℤ) + dx) ((y : ℤ) + dy) = true ∧
      (((x : ℤ) + dx).toNat, ((y : ℤ) + dy).toNat) = q') ?_]
  · constructor
    · rintro (hm | ⟨dy, hdy, dx, hdx, hib, rfl⟩)
      · exact Or.inl hm
      · rw [inBounds_iff] at hib
        rw [mem_offsets] at hdy hdx
        refine Or.inr ?_
        simp only
        omega
    · rintro (hm | ⟨h1, h2, h3, h4, h5, h6⟩)
      · exact Or.inl hm
      · refine Or.inr ⟨(q.2 : ℤ) - y, mem_offsets.mpr (by omega),
          (q.1 : ℤ) - x, mem_offsets.mpr (by omega), by rw [inBounds_iff]; omega, ?_⟩
        simp only [Prod.ext_iff]
        omega
  · intro a dy q'
    rw [foldl_or_char _
      (fun dx q'' => inBounds w h ((x : ℤ) + dx) ((y : ℤ) + dy) = true ∧
        (((x : ℤ) + dx).toNat, ((y : ℤ) + dy).toNat) = q'') ?_]
    intro a2 dx q''
    dsimp only
    by_cases hib : inBounds w h ((x : ℤ) + dx) ((y : ℤ) + dy)
    · rw [if_pos hib]
      rcases eq_or_ne q'' ((((x : ℤ) + dx).toNat, ((y : ℤ) + dy).toNat)) with rfl | hne
      · simp [Function.update_same, hib]
      · rw [Function.update_noteq hne]
        rw [or_iff_left]
        rintro ⟨-, heq⟩
        exact hne heq.symm
    · rw [if_neg hib]
      simp [hib]

lemma dilateMask_char (m : Mask) (w h : ℕ) (radius : ℤ) (hr : 1 ≤ radius) (q : ℕ × ℕ) :
    (dilateMask m w h radius) q = true ↔
      m q = true ∨ ∃ p, p.1 < w ∧ p.2 < h ∧ m p = true ∧
        (q.1 < w ∧ q.2 < h ∧ -(radius.toNat : ℤ) ≤ (q.1 : ℤ) - p.1 ∧
          (q.1 : ℤ) - p.1 ≤ radius.toNat ∧ -(radius.toNat : ℤ) ≤ (q.2 : ℤ) - p.2 ∧
          (q.2 : ℤ) - p.2 ≤ radius.toNat) := by
  unfold dilateMask
  rw [if_neg (by omega)]
  rw [foldl_or_char _
    (fun p q' => m p = true ∧ (q'.1 < w ∧ q'.2 < h ∧
      -(radius.toNat : ℤ) ≤ (q'.1 : ℤ) - p.1 ∧ (q'.1 : ℤ) - p.1 ≤ radius.toNat ∧
      -(radius.toNat : ℤ) ≤ (q'.2 : ℤ) - p.2 ∧ (q'.2 : ℤ) - p.2 ≤ radius.toNat)) ?_]
  · constructor
    · rintro (hm | ⟨p, hp, hmp, hcond⟩)
      · exact Or.inl hm
      · rw [mem_allPixels] at hp
        exact Or.inr ⟨p, hp.1, hp.2, hmp, hcond⟩
    · rintro (hm | ⟨p, hp1, hp2, hmp, hcond⟩)
      · exact Or.inl hm
      · exact Or.inr ⟨p, mem_allPixels.mpr ⟨hp1, hp2⟩, hmp, hcond⟩
  · intro a p q'
    by_cases hmp : m p
    · rw [if_pos hmp, setNeighborhood_char]
      simp [hmp]
    · rw [if_neg hmp]
      simp [hmp]

/-! ## Claim theorems: mask dilation -/

/-- C6: dilation with radius 0 returns the input mask itself, and for radius
≥ 1 an in-bounds pixel is set in the output iff some in-bounds originally-set
pixel lies within Chebyshev distance `radius` of it (a single pass with a
square structuring element); the single-set-pixel square of the claim is the
instance of the iff at a one-pixel mask. -/
theorem c6_dilation :
    (∀ (m : Mask) (w h : ℕ), dilateMask m w h 0 = m) ∧
      (∀ (m : Mask) (w h : ℕ) (radius : ℤ), 1 ≤ radius → ∀ x y : ℕ, x < w → y < h →
        (dilateMask m w h radius (x, y) = true ↔
          ∃ sx sy : ℕ, sx < w ∧ sy < h ∧ m (sx, sy) = true ∧
            |(x : ℤ) - sx| ≤ radius ∧ |(y : ℤ) - sy| ≤ radius)) := by
  constructor
  · intro m w h
    unfold dilateMask
    rw [if_pos le_rfl]
  · intro m w h radius hr x y hx hy
    rw [dilateMask_char m w h radius hr]
    have hrt : ((radius.toNat : ℤ)) = radius := by omega
    constructor
    · rintro (hm | ⟨p, hp1, hp2, hmp, -, -, h3, h4, h5, h6⟩)
      · exact ⟨x, y, hx, hy, hm, by simp [abs_le]; omega, by simp [abs_le]; omega⟩
      · refine ⟨p.1, p.2, hp1, hp2, by simpa using hmp, ?_, ?_⟩
        · rw [abs_le]
          omega
        · rw [abs_le]
          omega
    · rintro ⟨sx, sy, hsx, hsy, hm, h1, h2⟩
      rw [abs_le] at h1 h2
      refine Or.inr ⟨(sx, sy), hsx, hsy, hm, hx, hy, ?_, ?_, ?_, ?_⟩ <;> simp <;> omega

/-- Witness for C6: dilating the single-pixel mask `{(1,1)}` in a 3×3 buffer
by radius 1 sets the corner `(0, 0)` (Chebyshev distance 1), and the radius-0
pass is the identity on that mask. -/
theorem c6_dilation_witness :
    dilateMask maskCenter 3 3 1 (0, 0) = true ∧ dilateMask maskCenter 3 3 0 = maskCenter := by
  constructor
  · exact (c6_dilation.2 maskCenter 3 3 1 (by decide) 0 0 (by decide) (by decide)).mpr
      ⟨1, 1, by decide, by decide, by decide, by decide, by decide⟩
  · exact c6_dilation.1 maskCenter 3 3

/-! ## Helper lemmas: inpainting -/

lemma inpaintValue_congr (dmask : Mask) (w h r : ℕ) (out data : Buf) (x y : ℕ)
    (hsame : ∀ q, dmask q = false → out q = data q)
    (halpha : (out (x, y)).a = (data (x, y)).a) :
    inpaintValue dmask w h r out x y = inpaintValue dmask w h r data x y := by
  unfold inpaintValue
  have hns : ∀ q ∈ (neighborList w h r x y).filter (fun q => decide (dmask q = false)),
      out q = data q := by
    intro q hq
    have := (List.mem_filter.mp hq).2
    exact hsame q (by simpa using this)
  have eR : ((neighborList w h r x y).filter (fun q => decide (dmask q = false))).map
        (fun q => (out q).r) =
      ((neighborList w h r x y).filter (fun q => decide (dmask q = false))).map
        (fun q => (data q).r) :=
    List.map_congr_left (fun q hq => by rw [hns q hq])
  have eG : ((neighborList w h r x y).filter (fun q => decide (dmask q = false))).map
        (fun q => (out q).g) =
      ((neighborList w h r x y).filter (fun q => decide (dmask q = false))).map
        (fun q => (data q).g) :=
    List.map_congr_left (fun q hq => by rw [hns q hq])
  have eB : ((neighborList w h r x y).filter (fun q => decide (dmask q = false))).map
        (fun q => (out q).b) =
      ((neighborList w h r x y).filter (fun q => decide (dmask q = false))).map
        (fun q => (data q).b) :=
    List.map_congr_left (fun q hq => by rw [hns q hq])
  simp only [eR, eG, eB, halpha]

lemma inpaintPure_alpha (data : Buf) (dmask : Mask) (w h r : ℕ) (q : ℕ × ℕ) :
    (inpaintPure data dmask w h r q).a = (data q).a := by
  unfold inpaintPure inpaintValue
  by_cases hm : dmask q
  · rw [if_pos hm]
    dsimp only
    by_cases hc : 0 < ((neighborList w h r q.1 q.2).filter (fun t => decide (dmask t = false))).length
    · rw [if_pos hc]
    · rw [if_neg hc]
  · rw [if_neg hm]

lemma inpaintLoop_invariant (data : Buf) (dmask : Mask) (w h r : ℕ) :
    ∀ (order : List (ℕ × ℕ)) (P : ℕ × ℕ → Bool) (out : Buf),
      (∀ q, out q = if (dmask q && P q) = true then inpaintPure data dmask w h r q else data q) →
      ∀ q, inpaintLoop dmask w h r order out q =
        if (dmask q && (P q || decide (q ∈ order))) = true then inpaintPure data dmask w h r q
        else data q := by
  intro order
  induction order with
  | nil =>
    intro P out hout q
    simpa using hout q
  | cons p order ih =>
    intro P out hout q
    have hsame : ∀ t, dmask t = false → out t = data t := by
      intro t ht
      rw [hout t, ht]
      simp
    have halpha : ∀ t, (out t).a = (data t).a := by
      intro t
      rw [hout t]
      by_cases hc : (dmask t && P t) = true
      · rw [if_pos hc]
        exact inpaintPure_alpha data dmask w h r t
      · rw [if_neg hc]
    have hstep : ∀ t, inpaintStep dmask w h r out p t =
        if (dmask t && (P t || decide (t = p))) = true then inpaintPure data dmask w h r t
        else data t := by
      intro t
      unfold inpaintStep
      by_cases hmp : dmask p
      · rw [if_pos hmp]
        rcases eq_or_ne t p with rfl | hne
        · rw [Function.update_same]
          have hcg : inpaintValue dmask w h r out t.1 t.2 =
              inpaintValue dmask w h r data t.1 t.2 :=
            inpaintValue_congr dmask w h r out data t.1 t.2 hsame (halpha (t.1, t.2))
          rw [hcg]
          simp [hmp, inpaintPure]
        · rw [Function.update_noteq hne, hout t]
          simp [hne]
      · rw [if_neg hmp]
        rw [hout t]
        rcases eq_or_ne t p with rfl | hne
        · have hft : dmask t = false := by simpa using hmp
          simp [hft]
        · simp [hne]
    rw [inpaintLoop, List.foldl_cons]
    have hres := ih (fun t => P t || decide (t = p)) (inpaintStep dmask w h r out p) hstep q
    rw [inpaintLoop] at hres
    rw [hres]
    have hdec : (decide (q ∈ p :: order) : Bool) = (decide (q = p) || decide (q ∈ order)) := by
      by_cases h1 : q = p <;> by_cases h2 : q ∈ order <;> simp [List.mem_cons, h1, h2]
    rw [hdec, ← Bool.or_assoc]

lemma inpaintLoop_char (data : Buf) (dmask : Mask) (w h r : ℕ) (order : List (ℕ × ℕ))
    (q : ℕ × ℕ) :
    inpaintLoop dmask w h r order data q =
      if (dmask q && decide (q ∈ order)) = true then inpaintPure data dmask w h r q
      else data q := by
  have := inpaintLoop_invariant data dmask w h r order (fun _ => false) data (by simp) q
  simpa using this

/-! ## Claim theorems: inpainting -/

/-- C3: reconstruction leaves every pixel not set in the mask exactly equal
to its input value in all four channels (the equality is of the whole RGBA
record); only masked pixels may differ. -/
theorem c3_outside_mask (data : Buf) (dmask : Mask) (w h r : ℕ) (p : ℕ × ℕ)
    (hp : dmask p = false) : inpaintImage data dmask w h r p = data p := by
  unfold inpaintImage
  rw [inpaintLoop_char]
  simp [hp]

/-- Witness for C3 at a concrete buffer and the empty mask. -/
theorem c3_outside_mask_witness :
    maskNone (0, 0) = false ∧ inpaintImage data1 maskNone 1 1 2 (0, 0) = data1 (0, 0) :=
  ⟨rfl, c3_outside_mask data1 maskNone 1 1 2 (0, 0) rfl⟩

/-- C5: the inpainting loop's result at a pixel is the pure per-pixel value
`inpaintPure` computed from the ORIGINAL buffer (the mean neighbors are the
original pixels, never values written earlier in the same pass), so the
result depends on the visitation order only through membership: any two
orders visiting the same set of pixels produce identical outputs, and the
source's row-major pass equals the pure per-pixel reconstruction. -/
theorem c5_reads_original (data : Buf) (dmask : Mask) (w h r : ℕ) :
    (∀ (order : List (ℕ × ℕ)) (p : ℕ × ℕ),
      inpaintLoop dmask w h r order data p =
        if (dmask p && decide (p ∈ order)) = true then inpaintPure data dmask w h r p
        else data p) ∧
      (∀ o1 o2 : List (ℕ × ℕ), (∀ q, q ∈ o1 ↔ q ∈ o2) →
        inpaintLoop dmask w h r o1 data = inpaintLoop dmask w h r o2 data) ∧
      (∀ p : ℕ × ℕ, inpaintImage data dmask w h r p =
        if (dmask p && decide (p.1 < w) && decide (p.2 < h)) = true
        then inpaintPure data dmask w h r p else data p) := by
  refine ⟨fun order p => inpaintLoop_char data dmask w h r order p, ?_, ?_⟩
  · intro o1 o2 hmem
    funext p
    rw [inpaintLoop_char, inpaintLoop_char, decide_eq_decide.mpr (hmem p)]
  · intro p
    unfold inpaintImage
    rw [inpaintLoop_char]
    have hdec : (decide (p ∈ allPixels w h) : Bool) =
        (decide (p.1 < w) && decide (p.2 < h)) := by
      by_cases h1 : p.1 < w <;> by_cases h2 : p.2 < h <;> simp [mem_allPixels, h1, h2]
    rw [hdec, ← Bool.and_assoc]

/-- Witness for C5: two orders with the same member set give the same
output. -/
theorem c5_reads_original_witness :
    inpaintLoop maskAll 1 1 2 [(0, 0)] data1 = inpaintLoop maskAll 1 1 2 [(0, 0), (0, 0)] data1 :=
  (c5_reads_original data1 maskAll 1 1 2).2.1 [(0, 0)] [(0, 0), (0, 0)] (by intro q; simp)

/-- C4 counterexample: in a 1×1 buffer whose sole pixel is masked and has
original alpha 128, reconstruction has no unmasked neighbor in radius 2 and
writes white into R, G, B — but the output alpha is the original 128, not
255, because the inpainting loop never writes the alpha byte. -/
theorem c4_counterexample :
    inpaintImage data1 maskAll 1 1 2 (0, 0) = ⟨255, 255, 255, 128⟩ ∧
      (inpaintImage data1 maskAll 1 1 2 (0, 0)).a ≠ 255 := by
  decide

/-- C4 amended: a masked in-bounds pixel with no unmasked neighbor within
the square neighborhood of the inpaint radius is reconstructed as
`(255, 255, 255)` in R, G, B with its alpha byte UNCHANGED from the input
(not forced to 255). -/
theorem c4_amended (data : Buf) (dmask : Mask) (w h r x y : ℕ)
    (hm : dmask (x, y) = true) (hx : x < w) (hy : y < h)
    (hns : ((neighborList w h r x y).filter fun q => dmask q = false) = []) :
    inpaintImage data dmask w h r (x, y) =
      { r := 255, g := 255, b := 255, a := (data (x, y)).a } := by
  unfold inpaintImage
  rw [inpaintLoop_char]
  have hmem : ((x, y) : ℕ × ℕ) ∈ allPixels w h := mem_allPixels.mpr ⟨hx, hy⟩
  rw [if_pos (by simp [hm, hmem])]
  unfold inpaintPure
  rw [if_pos hm]
  unfold inpaintValue
  dsimp only
  rw [hns]
  simp

/-- Witness for C4's amended theorem at the concrete 1×1 buffer. -/
theorem c4_amended_witness :
    inpaintImage data1 maskAll 1 1 2 (0, 0) =
      { r := 255, g := 255, b := 255, a := (data1 (0, 0)).a } :=
  c4_amended data1 maskAll 1 1 2 0 0 rfl (by decide) (by decide) (by decide)

end FSV
